import Mathlib

/-!
Verification of the turn-decision engine of the `HandcraftedPolicy` dialog
policy (`modules/policy/policy_handcrafted.py`), shallowly embedded in Lean.

Python dictionaries become insertion-ordered association lists, probabilities
become rationals (the code only ever compares them with `> 0.0`), Python
`None` becomes `Option.none`, and the policy instance's mutable fields
(`current_suggestions`, `s_index`) become an explicit `PolicyState` threaded
through the per-turn functions.  SQL rows are association lists whose values
may be null (`Option Value`).  Python's negative list indexing is modelled by
`pyIdx`.
-/

namespace Adviser

abbrev Slot := String
abbrev Value := String

/-- One database row: an ordered mapping from column name to nullable value. -/
abbrev Record := List (Slot × Option Value)

/-- Modelled from the spec: the user-act type tags enumerated in the data
model ("a type tag (enumerated: Inform, Request, Hello, Bye, Thanks, Bad, …)");
the class itself lives in `utils/useract.py`, outside the provided sources. -/
inductive UserActionType
  | Inform
  | NegativeInform
  | Request
  | Hello
  | Bye
  | Thanks
  | Bad
  | Confirm
  | Affirm
  | Deny
  | RequestAlternatives
deriving DecidableEq, Repr

/-- Modelled from the spec: one parsed unit of user intent; only the type tag
is consulted by the policy, and it may be null (`act.type is not None` is
tested in `_check_for_gen_actions`). -/
structure UserAct where
  type : Option UserActionType
deriving DecidableEq, Repr

/-- Modelled from the spec: the system-action type tags
("Welcome, Bad, Bye, RequestMore, Request, InformByName, InformByAlternatives");
the class itself lives in `utils/sysact.py`, outside the provided sources. -/
inductive SysActionType
  | Welcome
  | Bad
  | Bye
  | RequestMore
  | Request
  | InformByName
  | InformByAlternatives
deriving DecidableEq, Repr, Inhabited

/-- Modelled from the spec: a SysAct is "a type tag plus an ordered mapping of
slot→list-of-values (insertion order preserved; a slot may accumulate multiple
values)".  Call sites in the source pass a possibly-null slot
(`add_value(self._get_open_slot(...))`) and possibly-null values, so both are
`Option`s. -/
structure SysAct where
  type : SysActionType
  slotValues : List (Option Slot × List (Option Value))
deriving DecidableEq, Repr, Inhabited

/-- Modelled from the spec: `add_value` appends the value to the slot's list,
creating the slot at the end of the ordered mapping when absent. -/
def SysAct.addValue (a : SysAct) (slot : Option Slot) (value : Option Value) : SysAct :=
  if a.slotValues.any (fun kv => kv.1 == slot) then
    { a with slotValues :=
        a.slotValues.map (fun kv => if kv.1 == slot then (kv.1, kv.2 ++ [value]) else kv) }
  else
    { a with slotValues := a.slotValues ++ [(slot, [value])] }

/-- Modelled from the spec: `get_values` returns the slot's list of values
(empty when the slot is absent). -/
def SysAct.getValues (a : SysAct) (slot : Option Slot) : List (Option Value) :=
  match a.slotValues.find? (fun kv => kv.1 == slot) with
  | some kv => kv.2
  | none => []

/-- The belief state: `beliefs` is the slot → (value → probability) nested
dictionary; the two `system` memory fields written by the policy are carried
explicitly.  `lastInformedPrimKeyVal` stores a possibly-null Python value
(outer `Option` = field never written). -/
structure BeliefState where
  beliefs : List (Slot × List (Value × ℚ))
  lastInformedPrimKeyVal : Option (Option Value) := none
  lastRequestSlot : Option (Option Slot) := none
deriving DecidableEq

/-- The domain collaborator (`JSONLookupDomain`): primary key, the ordered
system-requestable slots, per-slot possible values, and the two lookup
operations. -/
structure Domain where
  primaryKey : Slot
  systemRequestable : List Slot
  possibleValues : Slot → List Value
  findEntities : List (Slot × Value) → List Record
  findInfoAboutEntity : Value → List Slot → List Record

/-- The policy instance's cross-turn mutable fields: `current_suggestions`
and `s_index` (an `Int`, since the code stores `-1` while seeding). -/
structure PolicyState where
  currentSuggestions : List Record
  sIndex : Int
deriving DecidableEq, Repr

/-- Python list indexing, including negative indices (`l[-1]` is the last
element); `none` models an `IndexError`. -/
def pyIdx (l : List α) (i : Int) : Option α :=
  if 0 ≤ i then l.get? i.toNat
  else if 0 ≤ (l.length : Int) + i then l.get? ((l.length : Int) + i).toNat
  else none

/-- `result[key]` on a row: the stored (possibly null) value, with a missing
column also modelled as null. -/
def rowGet (r : Record) (k : Slot) : Option Value :=
  (List.lookup k r).getD none

/-- Python truthiness of an optional string: `None` and `""` are falsy. -/
def truthyS : Option Value → Bool
  | some s => s ≠ ""
  | none => false

/-- The cell of one belief slot (`belief_state["beliefs"][slot]`); a missing
slot yields the empty cell. -/
def getBelief (bs : BeliefState) (slot : Slot) : List (Value × ℚ) :=
  (List.lookup slot bs.beliefs).getD []

/-- The `for v in cell: if cell[v] > 0: x = v` idiom: the last value with
positive probability, if any. -/
def activeLast (cell : List (Value × ℚ)) : Option Value :=
  cell.foldl (fun acc vp => if vp.2 > 0 then some vp.1 else acc) none

/-- `HandcraftedPolicy._get_method`: the active value of the `method` slot. -/
def getMethod (bs : BeliefState) : Option Value :=
  activeLast (getBelief bs "method")

/-- `HandcraftedPolicy._get_name`: under `byprimarykey`, the last active
non-`**NONE**` value of the primary-key slot, else the entity at the
suggestion cursor, else null. -/
def getName (d : Domain) (st : PolicyState) (bs : BeliefState) : Option Value :=
  if getMethod bs = some "byprimarykey" then
    let name : Option Value := (getBelief bs d.primaryKey).foldl
      (fun acc vp =>
        if vp.2 > 0 then (if vp.1 ≠ "**NONE**" then some vp.1 else acc) else acc) none
    if truthyS name then name
    else if st.sIndex < (st.currentSuggestions.length : Int) then
      match pyIdx st.currentSuggestions st.sIndex with
      | some sug => if sug ≠ [] then rowGet sug d.primaryKey else name
      | none => name
    else name
  else none

/-- The `non_applicable` slot list of `_get_constraints`. -/
def nonApplicable (d : Domain) : List Slot :=
  ["requested", "discourseAct", "method", "lastInformedPrimKeyVal", d.primaryKey]

/-- Python dictionary assignment `m[k] = v`: update in place when the key
exists, else append. -/
def dictSet (l : List (Slot × Value)) (k : Slot) (v : Value) : List (Slot × Value) :=
  if l.any (fun kv => kv.1 == k) then
    l.map (fun kv => if kv.1 == k then (k, v) else kv)
  else l ++ [(k, v)]

/-- One outer-loop iteration of `_get_constraints`: fold the slot's cell into
the (constraints, dontcare) accumulator, skipping `non_applicable` slots. -/
def constraintsStep (d : Domain) (acc : List (Slot × Value) × List Slot)
    (entry : Slot × List (Value × ℚ)) : List (Slot × Value) × List Slot :=
  if entry.1 ∈ nonApplicable d then acc
  else entry.2.foldl (fun acc vp =>
    if vp.2 > 0 then
      if vp.1 = "dontcare" then (acc.1, acc.2 ++ [entry.1])
      else if vp.1 ≠ "**NONE**" then (dictSet acc.1 entry.1 vp.1, acc.2)
      else acc
    else acc) acc

/-- `HandcraftedPolicy._get_constraints`: the user's constraints and the
slots marked don't-care. -/
def getConstraints (d : Domain) (bs : BeliefState) :
    List (Slot × Value) × List Slot :=
  bs.beliefs.foldl (constraintsStep d) ([], [])

/-- The inner-loop body of `_get_constraints` for the slot named `t`, named
for the proofs below; identical to the lambda inside `constraintsStep`. -/
def cellStep (t : Slot) (acc : List (Slot × Value) × List Slot)
    (vp : Value × ℚ) : List (Slot × Value) × List Slot :=
  if vp.2 > 0 then
    if vp.1 = "dontcare" then (acc.1, acc.2 ++ [t])
    else if vp.1 ≠ "**NONE**" then (dictSet acc.1 t vp.1, acc.2)
    else acc
  else acc

/-- `HandcraftedPolicy._get_requested_slots`: active, non-sentinel values of
the `requested` slot, in cell order. -/
def getRequestedSlots (bs : BeliefState) : List Slot :=
  (getBelief bs "requested").foldl
    (fun acc rp => if rp.2 > 0 ∧ rp.1 ≠ "**NONE**" then acc ++ [rp.1] else acc) []

/-- `HandcraftedPolicy._get_open_slot`: the first system-requestable slot not
already constrained. -/
def getOpenSlot (d : Domain) (bs : BeliefState) : Option Slot :=
  let filled := (getConstraints d bs).1
  d.systemRequestable.find? (fun s => ! filled.any (fun kv => kv.1 == s))

/-- `HandcraftedPolicy._query_db`: query by identifier when a name resolves
under `byprimarykey`, else search by constraints. -/
def queryDb (d : Domain) (st : PolicyState) (bs : BeliefState) : List Record :=
  let name := getName d st bs
  if truthyS name ∧ getMethod bs = some "byprimarykey" then
    d.findInfoAboutEntity (name.getD "") (getRequestedSlots bs)
  else d.findEntities (getConstraints d bs).1

/-- The per-slot absolute count difference of `_highest_info_gain`: for a
binary slot with possible values `[v1, v2]`, `|count v1 - count v2|` when both
occur among the column's values, else `none` (slot not entered into `diffs`). -/
def slotDiff (d : Domain) (temp : Slot → List (Option Value)) (slot : Slot) : Option Nat :=
  match d.possibleValues slot with
  | [val1, val2] =>
    let c1 := (temp slot).count (some val1)
    let c2 := (temp slot).count (some val2)
    if 0 < c1 ∧ 0 < c2 then some ((c1 : Int) - (c2 : Int)).natAbs else none
  | _ => none

/-- The `diffs` dictionary of `_highest_info_gain`, in `bin_slots` order. -/
def diffsOf (d : Domain) (binSlots : List Slot) (temp : Slot → List (Option Value)) :
    List (Slot × Nat) :=
  binSlots.filterMap (fun slot => (slotDiff d temp slot).map (fun n => (slot, n)))

/-- `HandcraftedPolicy._highest_info_gain`: the first slot of minimal
difference (Python's stable `sorted(diffs.items(), key=value)[0][0]`), or `""`
when `diffs` is empty. -/
def highestInfoGain (d : Domain) (binSlots : List Slot)
    (temp : Slot → List (Option Value)) : String :=
  match diffsOf d binSlots temp with
  | [] => ""
  | x :: xs => (xs.foldl (fun best kv => if kv.2 < best.2 then kv else best) x).1

/-- The candidate request slots of `_gen_next_request`: system-requestable
slots neither constrained nor marked don't-care. -/
def reqSlotsOf (d : Domain) (bs : BeliefState) : List Slot :=
  let cd := getConstraints d bs
  d.systemRequestable.filter
    (fun s => !(cd.2.contains s) && !(cd.1.any (fun kv => kv.1 == s)))

/-- The binary candidate slots (exactly two domain-declared possible values). -/
def binSlotsOf (d : Domain) (bs : BeliefState) : List Slot :=
  (reqSlotsOf d bs).filter (fun s => (d.possibleValues s).length == 2)

/-- The non-binary candidate slots, in domain-declared order. -/
def nonBinSlotsOf (d : Domain) (bs : BeliefState) : List Slot :=
  (reqSlotsOf d bs).filter (fun s => !((binSlotsOf d bs).contains s))

/-- `HandcraftedPolicy._gen_next_request`: first non-binary slot whose column
holds more than one distinct value (`len(set(temp[slot])) > 1`), else the
balanced-split binary slot. -/
def genNextRequest (d : Domain) (bs : BeliefState)
    (temp : Slot → List (Option Value)) : String :=
  match (nonBinSlotsOf d bs).find? (fun s => decide ((temp s).dedup.length > 1)) with
  | some s => s
  | none => highestInfoGain d (binSlotsOf d bs) temp

/-- The `temp` per-column value lists of `_raw_action`: every row's value for
each non-primary-key column. -/
def buildTemp (d : Domain) (qRes : List Record) : Slot → List (Option Value) :=
  fun key =>
    if key = d.primaryKey then []
    else qRes.filterMap (fun r =>
      if r.any (fun kv => kv.1 == key) then some (rowGet r key) else none)

/-- The empty raw system act (`SysAct()` with its type set). -/
def rawSysAct (t : SysActionType) : SysAct := ⟨t, []⟩

/-- `HandcraftedPolicy._raw_action`: under `byconstraints` with more than one
result, ask for the selected slot when one discriminates; otherwise an empty
`InformByName` to be filled in by the conversion helpers. -/
def rawAction (d : Domain) (bs : BeliefState) (qRes : List Record)
    (method : Option Value) : SysAct :=
  if qRes.length > 1 ∧ method = some "byconstraints" then
    let nextReq := genNextRequest d bs (buildTemp d qRes)
    if nextReq ≠ "" then (rawSysAct SysActionType.Request).addValue (some nextReq) none
    else rawSysAct SysActionType.InformByName
  else rawSysAct SysActionType.InformByName

/-- `HandcraftedPolicy._convert_inform_by_primkey`: answer a request about an
entity from the first result row's first four columns, substituting
`"not available"` for falsy values and ensuring the primary key is present. -/
def convertInformByPrimkey (d : Domain) (st : PolicyState) (bs : BeliefState)
    (qRes : List Record) (act : SysAct) : SysAct :=
  let act := { act with type := SysActionType.InformByName }
  match qRes with
  | [] => act.addValue (some d.primaryKey) (some "none")
  | result :: _ =>
    let keys := (result.map (fun kv => kv.1)).take 4
    let act := keys.foldl (fun a k =>
      let v := rowGet result k
      a.addValue (some k) (if truthyS v then v else some "not available")) act
    if d.primaryKey ∈ keys then act
    else act.addValue (some d.primaryKey) (getName d st bs)

/-- Append the active constraints to an inform act, as both conversion
helpers do in their final loop. -/
def appendConstraints (d : Domain) (bs : BeliefState) (act : SysAct) : SysAct :=
  (getConstraints d bs).1.foldl (fun a cv => a.addValue (some cv.1) (some cv.2)) act

/-- `HandcraftedPolicy._convert_inform_by_alternatives`: seed the suggestion
list from the results when empty (cursor at `-1`), advance the cursor, then
offer the candidate there (`InformByName` exactly on index 0) or clamp to the
last index and offer `('name', 'none')` on exhaustion; finish by appending the
active constraints. -/
def convertInformByAlternatives (d : Domain) (st : PolicyState) (bs : BeliefState)
    (qRes : List Record) (act : SysAct) : PolicyState × SysAct :=
  let st := if qRes ≠ [] ∧ st.currentSuggestions = [] then ⟨qRes, -1⟩ else st
  let si := st.sIndex + 1
  let stAct :=
    if si ≤ (st.currentSuggestions.length : Int) - 1 then
      let act := { act with type :=
        if si = 0 then SysActionType.InformByName else SysActionType.InformByAlternatives }
      let result := (pyIdx st.currentSuggestions si).getD []
      ((⟨st.currentSuggestions, si⟩ : PolicyState),
        act.addValue (some d.primaryKey) (rowGet result d.primaryKey))
    else
      ((⟨st.currentSuggestions, (st.currentSuggestions.length : Int) - 1⟩ : PolicyState),
        SysAct.addValue { act with type := SysActionType.InformByAlternatives }
          (some "name") (some "none"))
  (stAct.1, appendConstraints d bs stAct.2)

/-- `HandcraftedPolicy._convert_inform_by_constraints`: on nonempty results,
replace the suggestion list (cursor 0) and offer the first candidate's primary
key; on empty results offer `'none'`; then append the active constraints. -/
def convertInformByConstraints (d : Domain) (st : PolicyState) (bs : BeliefState)
    (qRes : List Record) (act : SysAct) : PolicyState × SysAct :=
  let stAct :=
    match qRes with
    | [] => (st, act.addValue (some d.primaryKey) (some "none"))
    | result :: _ =>
      ((⟨qRes, 0⟩ : PolicyState), act.addValue (some d.primaryKey) (rowGet result d.primaryKey))
  let act := { stAct.2 with type := SysActionType.InformByName }
  (stAct.1, appendConstraints d bs act)

/-- `HandcraftedPolicy._convert_inform`: dispatch on the method string. -/
def convertInform (d : Domain) (st : PolicyState) (bs : BeliefState)
    (method : Option Value) (qRes : List Record) (act : SysAct) : PolicyState × SysAct :=
  if method = some "byprimarykey" then (st, convertInformByPrimkey d st bs qRes act)
  else if method = some "byconstraints" then convertInformByConstraints d st bs qRes act
  else if method = some "byalternatives" then convertInformByAlternatives d st bs qRes act
  else (st, act)

/-- The `Bad` system act. -/
def badAct : SysAct := rawSysAct SysActionType.Bad

/-- The `InformByName` post-processing at the end of `_next_action`: record
the offered primary-key value into `system.lastInformedPrimKeyVal` when the
act carries one, else add the literal `'none'` (without recording it). -/
def informPost (d : Domain) (bs : BeliefState) (stAct : PolicyState × SysAct) :
    PolicyState × BeliefState × SysAct :=
  let values := stAct.2.getValues (some d.primaryKey)
  if values ≠ [] then
    (stAct.1, { bs with lastInformedPrimKeyVal := some values.headI }, stAct.2)
  else (stAct.1, bs, stAct.2.addValue (some d.primaryKey) (some "none"))

/-- The part of `_next_action` after the three early exits: query the
database, classify the raw act, and either record the requested slot or
convert the inform and post-process it. -/
def queryPath (d : Domain) (st : PolicyState) (bs : BeliefState) :
    PolicyState × BeliefState × SysAct :=
  let results := queryDb d st bs
  let act := rawAction d bs results (getMethod bs)
  if act.type = SysActionType.Request then
    if act.slotValues.length > 0 then
      (st, { bs with lastRequestSlot := some (act.slotValues.headI.1) }, act)
    else (st, bs, act)
  else if act.type = SysActionType.InformByName then
    informPost d bs (convertInform d st bs (getMethod bs) results act)
  else (st, bs, act)

/-- `HandcraftedPolicy._next_action`: the per-turn domain decision — the three
early exits, then the query path (`queryPath`).  Returns the updated policy
state, the updated belief state, and the chosen action. -/
def nextAction (d : Domain) (st : PolicyState) (bs : BeliefState) :
    PolicyState × BeliefState × SysAct :=
  let method := getMethod bs
  if method = some "none" then (st, bs, badAct)
  else if method = some "byalternatives" ∧ (getConstraints d bs).1 = [] then
    (st, bs, badAct)
  else if method = some "byprimarykey" ∧ getRequestedSlots bs = [] then
    let act := (rawSysAct SysActionType.InformByName).addValue
      (some d.primaryKey) (getName d st bs)
    (st, { bs with lastInformedPrimKeyVal := some (getName d st bs) }, act)
  else queryPath d st bs

/-- `HandcraftedPolicy._check_for_gen_actions`: collect the turn's act types
(null types only on turn 0) and remove one occurrence of the highest-priority
filler type (`Bad`, else `Thanks`, else `Hello`) when the list holds more than
one element. -/
def checkForGenActions (turn : Nat) (userActs : List UserAct) :
    List (Option UserActionType) :=
  let lst := userActs.foldl
    (fun acc a => if a.type ≠ none ∨ turn = 0 then acc ++ [a.type] else acc) []
  let thanks := userActs.any (fun a => a.type == some UserActionType.Thanks)
  let hello := userActs.any (fun a => a.type == some UserActionType.Hello)
  let bad := userActs.any (fun a => a.type == some UserActionType.Bad)
  if lst.length > 1 then
    if bad then lst.erase (some UserActionType.Bad)
    else if thanks then lst.erase (some UserActionType.Thanks)
    else if hello then lst.erase (some UserActionType.Hello)
    else lst
  else lst

/-- A second definition following the claim's words, for comparison with
`checkForGenActions`: collect the distinct act types present; when more than
one distinct type is present, drop `Bad` if anything else co-occurs, else drop
`Thanks` if anything else co-occurs, else drop `Hello` if anything else
co-occurs. -/
def specActionFilter (types : List (Option UserActionType)) :
    List (Option UserActionType) :=
  let dtypes := types.dedup
  if dtypes.length > 1 then
    if some UserActionType.Bad ∈ dtypes then dtypes.erase (some UserActionType.Bad)
    else if some UserActionType.Thanks ∈ dtypes then
      dtypes.erase (some UserActionType.Thanks)
    else if some UserActionType.Hello ∈ dtypes then
      dtypes.erase (some UserActionType.Hello)
    else dtypes
  else dtypes

/-- The two result shapes of `forward`: the Welcome path returns the `SysAct`
object directly, every other path returns the dictionary
`{'sys_act': sys_act}`. -/
inductive ForwardResult
  | bare (act : SysAct)
  | wrapped (act : SysAct)
deriving DecidableEq, Repr

/-- `HandcraftedPolicy.forward`: the per-turn entry point — Welcome on the
initial empty turn, then the fixed-priority dispatch over the filtered act
types, delegating to `nextAction` for domain turns. -/
def forward (d : Domain) (st : PolicyState) (turn : Nat) (bs : BeliefState)
    (userActs : Option (List UserAct)) : PolicyState × BeliefState × ForwardResult :=
  let actTypes := checkForGenActions turn (userActs.getD [])
  if userActs = none ∧ turn = 0 then
    (st, bs, ForwardResult.bare (rawSysAct SysActionType.Welcome))
  else
    let r :=
      if actTypes = [] ∧ turn > 0 then (st, bs, badAct)
      else if some UserActionType.Bad ∈ actTypes then (st, bs, badAct)
      else if some UserActionType.Bye ∈ actTypes then
        (st, bs, rawSysAct SysActionType.Bye)
      else if some UserActionType.Thanks ∈ actTypes then
        (st, bs, rawSysAct SysActionType.RequestMore)
      else if some UserActionType.Hello ∈ actTypes then
        (st, bs, (rawSysAct SysActionType.Request).addValue (getOpenSlot d bs) none)
      else nextAction d st bs
    (r.1, r.2.1, ForwardResult.wrapped r.2.2)

/-- Run `n` consecutive domain turns, returning each turn's action paired
with the cursor observed after that turn's processing. -/
def runTurns (d : Domain) (st : PolicyState) (bs : BeliefState) :
    Nat → List (SysAct × Int)
  | 0 => []
  | n + 1 =>
    let r := nextAction d st bs
    (r.2.2, r.1.sIndex) :: runTurns d r.1 r.2.1 n

/-- The post-turn policy states across a sequence of `byalternatives`
conversion steps, each fed one turn's query results (the raw act being the
empty `InformByName` that `_raw_action` produces on this path). -/
def altTrace (d : Domain) (bs : BeliefState) :
    PolicyState → List (List Record) → List PolicyState
  | _, [] => []
  | st, q :: qs =>
    let st' := (convertInformByAlternatives d st bs q
      (rawSysAct SysActionType.InformByName)).1
    st' :: altTrace d bs st' qs

/-! ### Concrete fixtures for counterexamples and witnesses -/

/-- A course row with primary key `a`. -/
def rowA : Record := [("name", some "a"), ("semester", some "winter")]

/-- A course row with primary key `b`. -/
def rowB : Record := [("name", some "b"), ("semester", some "winter")]

/-- A course row with primary key `c`. -/
def rowC : Record := [("name", some "c"), ("semester", some "winter")]

/-- A courses domain whose constraint search finds three matching rows. -/
def altDomain : Domain where
  primaryKey := "name"
  systemRequestable := ["semester", "ects"]
  possibleValues := fun s => if s = "semester" then ["winter", "summer"] else ["2", "4", "6"]
  findEntities := fun _ => [rowA, rowB, rowC]
  findInfoAboutEntity := fun _ _ => []

/-- A courses domain whose constraint search finds nothing. -/
def testDomain : Domain where
  primaryKey := "name"
  systemRequestable := ["semester", "ects"]
  possibleValues := fun s => if s = "semester" then ["winter", "summer"] else ["2", "4", "6"]
  findEntities := fun _ => []
  findInfoAboutEntity := fun _ _ => []

/-- A courses domain whose constraint search finds exactly one row. -/
def oneRowDomain : Domain where
  primaryKey := "name"
  systemRequestable := ["semester", "ects"]
  possibleValues := fun s => if s = "semester" then ["winter", "summer"] else ["2", "4", "6"]
  findEntities := fun _ => [rowA]
  findInfoAboutEntity := fun _ _ => []

/-- Belief state: method `byalternatives`, constraint `semester = winter`. -/
def bsAlt : BeliefState :=
  { beliefs := [("method", [("byalternatives", 1)]), ("semester", [("winter", 1)])] }

/-- Belief state: method `byconstraints`, constraint `semester = winter`. -/
def bsCon : BeliefState :=
  { beliefs := [("method", [("byconstraints", 1)]), ("semester", [("winter", 1)])] }

/-- Belief state whose method slot holds no value with positive probability
(the "absent" method case: `_get_method` returns Python `None`). -/
def bsAbsent : BeliefState := { beliefs := [("method", [("byconstraints", 0)])] }

/-- Belief state whose active method value is the string `none`. -/
def bsNone : BeliefState := { beliefs := [("method", [("none", 1)])] }

/-- Belief state: method `byprimarykey` with no requested slots and no
resolvable entity name. -/
def bsPrimNoReq : BeliefState :=
  { beliefs := [("method", [("byprimarykey", 1)]), ("name", [("**NONE**", 1)])] }

/-- Belief state holding a belief slot literally named
`lastInformedPrimKeyVal` with an active value. -/
def bsLIP : BeliefState := { beliefs := [("lastInformedPrimKeyVal", [("x", 1)])] }

/-- The empty belief state. -/
def bsEmpty : BeliefState := { beliefs := [] }

/-! ### Claim theorems -/

/-- C1, counterexample: in the belief state `bsAbsent` the method slot is
absent (no method value has probability > 0), yet the per-turn decision
returns `InformByName`, not `Bad` — the claim's "Bad on absent method" part
is false. -/
theorem C1_counterexample :
    getMethod bsAbsent = none ∧
    (nextAction testDomain ⟨[], 0⟩ bsAbsent).2.2.type = SysActionType.InformByName ∧
    (nextAction testDomain ⟨[], 0⟩ bsAbsent).2.2.type ≠ SysActionType.Bad := by
  decide

/-- C1, amended: the per-turn decision returns `Bad` exactly when the active
method value is the literal string `none`; when no method value has positive
probability it instead falls through to the query path and returns
`InformByName`. -/
theorem C1_amended (d : Domain) (st : PolicyState) (bs : BeliefState)
    (h : getMethod bs = some "none" ∨ getMethod bs = none) :
    (nextAction d st bs).2.2.type =
      (if getMethod bs = some "none" then SysActionType.Bad
       else SysActionType.InformByName) := by
  rcases h with h | h
  · simp [nextAction, h, badAct, rawSysAct]
  · have hne : ¬ (getMethod bs = some "none") := by simp [h]
    simp only [nextAction, h, hne, if_false]
    simp [queryPath, informPost, rawAction, convertInform, rawSysAct,
      SysAct.addValue, SysAct.getValues, h]

/-- C1, witness: the amended statement applied to a state with active method
`none` (giving `Bad`) and to a state with absent method (giving
`InformByName`). -/
theorem C1_amended_witness :
    (nextAction testDomain ⟨[], 0⟩ bsNone).2.2.type =
      (if getMethod bsNone = some "none" then SysActionType.Bad
       else SysActionType.InformByName) ∧
    (nextAction testDomain ⟨[], 0⟩ bsAbsent).2.2.type =
      (if getMethod bsAbsent = some "none" then SysActionType.Bad
       else SysActionType.InformByName) := by
  exact ⟨C1_amended testDomain ⟨[], 0⟩ bsNone (Or.inl (by decide)),
    C1_amended testDomain ⟨[], 0⟩ bsAbsent (Or.inr (by decide))⟩

/-- C2, counterexample: with the 3-item suggestion list already built (cursor
at 0, as a `byconstraints` turn leaves it), the first of four consecutive
`byalternatives` turns emits `InformByAlternatives` carrying the candidate at
index 1 — not the claimed `InformByName` carrying index 0. -/
theorem C2_counterexample :
    ((runTurns altDomain ⟨[rowA, rowB, rowC], 0⟩ bsAlt 4).headI.1.type =
      SysActionType.InformByAlternatives) ∧
    ((runTurns altDomain ⟨[rowA, rowB, rowC], 0⟩ bsAlt 4).headI.1.type ≠
      SysActionType.InformByName) ∧
    ((runTurns altDomain ⟨[rowA, rowB, rowC], 0⟩ bsAlt 4).headI.1.getValues
      (some "name") = [some "b"]) := by
  decide

/-- C2, amended: the claimed four-turn sequence `InformByName`(idx0),
`InformByAlternatives`(idx1), `InformByAlternatives`(idx2),
`InformByAlternatives`(primary-key `none`, cursor clamped at 2) arises when
the suggestion list is empty beforehand and is seeded from the 3-row query
results on the first turn; when the list is already built with cursor 0, the
four turns instead yield the candidates at indices 1 and 2 followed by the
exhaustion act twice. -/
theorem C2_amended_scenarios :
    runTurns altDomain ⟨[], 0⟩ bsAlt 4 =
      [(⟨SysActionType.InformByName,
          [(some "name", [some "a"]), (some "semester", [some "winter"])]⟩, 0),
       (⟨SysActionType.InformByAlternatives,
          [(some "name", [some "b"]), (some "semester", [some "winter"])]⟩, 1),
       (⟨SysActionType.InformByAlternatives,
          [(some "name", [some "c"]), (some "semester", [some "winter"])]⟩, 2),
       (⟨SysActionType.InformByAlternatives,
          [(some "name", [some "none"]), (some "semester", [some "winter"])]⟩, 2)] ∧
    runTurns altDomain ⟨[rowA, rowB, rowC], 0⟩ bsAlt 4 =
      [(⟨SysActionType.InformByAlternatives,
          [(some "name", [some "b"]), (some "semester", [some "winter"])]⟩, 1),
       (⟨SysActionType.InformByAlternatives,
          [(some "name", [some "c"]), (some "semester", [some "winter"])]⟩, 2),
       (⟨SysActionType.InformByAlternatives,
          [(some "name", [some "none"]), (some "semester", [some "winter"])]⟩, 2),
       (⟨SysActionType.InformByAlternatives,
          [(some "name", [some "none"]), (some "semester", [some "winter"])]⟩, 2)] := by
  decide

/-- After any `byalternatives` conversion step, the cursor is at most the
last valid index of the (possibly reseeded) suggestion list. -/
theorem altStep_sIndex_le (d : Domain) (st : PolicyState) (bs : BeliefState)
    (q : List Record) (act : SysAct) :
    (convertInformByAlternatives d st bs q act).1.sIndex ≤
      ((convertInformByAlternatives d st bs q act).1.currentSuggestions.length : Int) - 1 := by
  simp only [convertInformByAlternatives]
  split_ifs with hseed hbound hbound <;> simp_all

/-- A `byalternatives` conversion step never rewinds a cursor that is within
bounds. -/
theorem altStep_sIndex_mono (d : Domain) (st : PolicyState) (bs : BeliefState)
    (q : List Record) (act : SysAct)
    (h : st.sIndex ≤ (st.currentSuggestions.length : Int) - 1) :
    st.sIndex ≤ (convertInformByAlternatives d st bs q act).1.sIndex := by
  simp only [convertInformByAlternatives]
  split_ifs with hseed hbound hbound <;> simp_all <;> omega

/-- C3: across any sequence of `byalternatives` turns, the cursor observed
after each turn's processing never exceeds the last valid index of the
suggestion list, and the observed cursor values are non-decreasing across the
sequence. -/
theorem C3_cursor_monotonic (d : Domain) (bs : BeliefState) (st : PolicyState)
    (qs : List (List Record)) :
    (∀ st' ∈ altTrace d bs st qs,
        st'.sIndex ≤ ((st'.currentSuggestions.length : Int)) - 1) ∧
    List.Chain' (fun a b => a.sIndex ≤ b.sIndex) (altTrace d bs st qs) := by
  induction qs generalizing st with
  | nil => simp [altTrace]
  | cons q qs ih =>
    obtain ⟨ihb, ihc⟩ :=
      ih ((convertInformByAlternatives d st bs q (rawSysAct SysActionType.InformByName)).1)
    constructor
    · intro st' hmem
      rcases (by simpa [altTrace] using hmem :
          st' = (convertInformByAlternatives d st bs q
            (rawSysAct SysActionType.InformByName)).1 ∨
          st' ∈ altTrace d bs
            ((convertInformByAlternatives d st bs q
              (rawSysAct SysActionType.InformByName)).1) qs) with h | h
      · rw [h]; exact altStep_sIndex_le d st bs q _
      · exact ihb st' h
    · rw [altTrace]
      refine List.chain'_cons'.mpr ⟨?_, ihc⟩
      intro y hy
      cases qs with
      | nil => simp [altTrace] at hy
      | cons q' qs' =>
        have hy' : (convertInformByAlternatives d
            ((convertInformByAlternatives d st bs q
              (rawSysAct SysActionType.InformByName)).1) bs q'
            (rawSysAct SysActionType.InformByName)).1 = y := by
          simpa [altTrace] using hy
        rw [← hy']
        exact altStep_sIndex_mono d _ bs q' _ (altStep_sIndex_le d st bs q _)

/-- C3, witness: the invariant instantiated on a concrete three-turn
`byalternatives` sequence. -/
theorem C3_cursor_monotonic_witness :
    List.Chain' (fun a b => a.sIndex ≤ b.sIndex)
      (altTrace altDomain bsAlt ⟨[], 0⟩
        [[rowA, rowB, rowC], [rowA, rowB, rowC], [rowA, rowB, rowC]]) :=
  (C3_cursor_monotonic altDomain bsAlt ⟨[], 0⟩
    [[rowA, rowB, rowC], [rowA, rowB, rowC], [rowA, rowB, rowC]]).2

/-- A column's values are not all identical (`len(set(...)) > 1`) exactly when
it holds two distinct values. -/
theorem dedup_length_gt_one_iff (l : List (Option Value)) :
    1 < l.dedup.length ↔ ∃ a ∈ l, ∃ b ∈ l, a ≠ b := by
  constructor
  · intro h
    rcases hd : l.dedup with _ | ⟨a, _ | ⟨b, t⟩⟩
    · rw [hd] at h; simp at h
    · rw [hd] at h; simp at h
    · have ha : a ∈ l := List.mem_dedup.mp (by rw [hd]; simp)
      have hb : b ∈ l := List.mem_dedup.mp (by rw [hd]; simp)
      have hnd := l.nodup_dedup
      rw [hd] at hnd
      refine ⟨a, ha, b, hb, fun he => ?_⟩
      exact (List.nodup_cons.mp hnd).1 (he ▸ List.mem_cons_self b t)
  · rintro ⟨a, ha, b, hb, hne⟩
    have ha' : a ∈ l.dedup := List.mem_dedup.mpr ha
    have hb' : b ∈ l.dedup := List.mem_dedup.mpr hb
    rcases hd : l.dedup with _ | ⟨x, _ | ⟨y, t⟩⟩
    · rw [hd] at ha'; simp at ha'
    · rw [hd] at ha' hb'
      simp at ha' hb'
      exact absurd (ha'.trans hb'.symm) hne
    · simp

/-- `find?` returns the first element satisfying the predicate. -/
theorem find?_middle {p : Slot → Bool} (l₁ l₂ : List Slot) (s : Slot)
    (h₁ : ∀ x ∈ l₁, p x = false) (hs : p s = true) :
    (l₁ ++ s :: l₂).find? p = some s := by
  induction l₁ with
  | nil => simp [List.find?_cons, hs]
  | cons x xs ih =>
    have hx := h₁ x (by simp)
    rw [List.cons_append, List.find?_cons, hx]
    exact ih (fun y hy => h₁ y (by simp [hy]))

/-- The running-minimum fold of `_highest_info_gain` returns an element of the
list (or the seed) whose difference is minimal. -/
theorem foldl_min_spec (x : Slot × Nat) (xs : List (Slot × Nat)) :
    ((xs.foldl (fun best kv => if kv.2 < best.2 then kv else best) x) = x ∨
      (xs.foldl (fun best kv => if kv.2 < best.2 then kv else best) x) ∈ xs) ∧
    (xs.foldl (fun best kv => if kv.2 < best.2 then kv else best) x).2 ≤ x.2 ∧
    ∀ y ∈ xs, (xs.foldl (fun best kv => if kv.2 < best.2 then kv else best) x).2 ≤ y.2 := by
  induction xs generalizing x with
  | nil => simp
  | cons k rest ih =>
    simp only [List.foldl_cons]
    obtain ⟨hmem, hle, hall⟩ := ih (if k.2 < x.2 then k else x)
    by_cases hk : k.2 < x.2
    · rw [if_pos hk] at hmem hle hall ⊢
      refine ⟨?_, le_trans hle (le_of_lt hk), ?_⟩
      · rcases hmem with h | h
        · right; rw [h]; exact List.mem_cons_self k rest
        · right; exact List.mem_cons_of_mem k h
      · intro y hy
        rcases List.mem_cons.mp hy with h | h
        · rw [h]; exact hle
        · exact hall y h
    · rw [if_neg hk] at hmem hle hall ⊢
      refine ⟨?_, hle, ?_⟩
      · rcases hmem with h | h
        · left; rw [h]
        · right; exact List.mem_cons_of_mem k h
      · intro y hy
        rcases List.mem_cons.mp hy with h | h
        · rw [h]; exact le_trans hle (le_of_not_lt hk)
        · exact hall y h

/-- Membership in the `diffs` dictionary of `_highest_info_gain`. -/
theorem mem_diffsOf_iff (d : Domain) (binSlots : List Slot)
    (temp : Slot → List (Option Value)) (s : Slot) (n : Nat) :
    (s, n) ∈ diffsOf d binSlots temp ↔ s ∈ binSlots ∧ slotDiff d temp s = some n := by
  simp only [diffsOf, List.mem_filterMap]
  constructor
  · rintro ⟨a, ha, hm⟩
    rcases h : slotDiff d temp a with _ | m
    · rw [h] at hm; simp at hm
    · rw [h] at hm
      simp at hm
      obtain ⟨rfl, rfl⟩ := hm
      exact ⟨ha, h⟩
  · rintro ⟨hs, hd⟩
    exact ⟨s, hs, by rw [hd]; rfl⟩

/-- C4: the slot selector returns the first non-binary candidate slot, in
domain-declared order, whose observed column values are not all identical;
when no non-binary slot discriminates it returns a binary candidate slot whose
two possible values both occur, of minimal absolute count difference
(`slotDiff`); and it returns the empty string when no binary candidate has
both values present. -/
theorem C4_selector (d : Domain) (bs : BeliefState)
    (temp : Slot → List (Option Value)) :
    (∀ l₁ s l₂, nonBinSlotsOf d bs = l₁ ++ s :: l₂ →
      (∃ a ∈ temp s, ∃ b ∈ temp s, a ≠ b) →
      (∀ x ∈ l₁, ∀ a ∈ temp x, ∀ b ∈ temp x, a = b) →
      genNextRequest d bs temp = s) ∧
    ((∀ x ∈ nonBinSlotsOf d bs, ∀ a ∈ temp x, ∀ b ∈ temp x, a = b) →
      ∀ s ∈ binSlotsOf d bs, (slotDiff d temp s).isSome →
        genNextRequest d bs temp ∈ binSlotsOf d bs ∧
        ∃ m, slotDiff d temp (genNextRequest d bs temp) = some m ∧
          ∀ s' ∈ binSlotsOf d bs, ∀ n, slotDiff d temp s' = some n → m ≤ n) ∧
    ((∀ x ∈ nonBinSlotsOf d bs, ∀ a ∈ temp x, ∀ b ∈ temp x, a = b) →
      (∀ s ∈ binSlotsOf d bs, slotDiff d temp s = none) →
      genNextRequest d bs temp = "") := by
  have hpred : ∀ x : Slot, (∀ a ∈ temp x, ∀ b ∈ temp x, a = b) →
      decide ((temp x).dedup.length > 1) = false := by
    intro x hx
    rw [decide_eq_false_iff_not]
    intro hgt
    obtain ⟨a, ha, b, hb, hne⟩ := (dedup_length_gt_one_iff (temp x)).mp hgt
    exact hne (hx a ha b hb)
  refine ⟨?_, ?_, ?_⟩
  · intro l₁ s l₂ hsplit ⟨a, ha, b, hb, hne⟩ hfirst
    have hs : decide ((temp s).dedup.length > 1) = true := by
      rw [decide_eq_true_iff]
      exact (dedup_length_gt_one_iff (temp s)).mpr ⟨a, ha, b, hb, hne⟩
    unfold genNextRequest
    rw [hsplit, find?_middle l₁ l₂ s (fun x hx => hpred x (hfirst x hx)) hs]
  · intro hnone s hsbin hsome
    have hfind : (nonBinSlotsOf d bs).find?
        (fun x => decide ((temp x).dedup.length > 1)) = none :=
      List.find?_eq_none.mpr (fun x hx => by simp [hpred x (hnone x hx)])
    obtain ⟨n, hn⟩ := Option.isSome_iff_exists.mp hsome
    have hmemd : (s, n) ∈ diffsOf d (binSlotsOf d bs) temp :=
      (mem_diffsOf_iff d _ temp s n).mpr ⟨hsbin, hn⟩
    have hgen : genNextRequest d bs temp =
        highestInfoGain d (binSlotsOf d bs) temp := by
      unfold genNextRequest
      rw [hfind]
    rcases hd : diffsOf d (binSlotsOf d bs) temp with _ | ⟨x, xs⟩
    · rw [hd] at hmemd; simp at hmemd
    · have hhig : highestInfoGain d (binSlotsOf d bs) temp =
          (xs.foldl (fun best kv => if kv.2 < best.2 then kv else best) x).1 := by
        unfold highestInfoGain
        rw [hd]
      obtain ⟨hmem, hle, hall⟩ := foldl_min_spec x xs
      set b := xs.foldl (fun best kv => if kv.2 < best.2 then kv else best) x with hb
      have hbmem : b ∈ diffsOf d (binSlotsOf d bs) temp := by
        rw [hd]
        rcases hmem with h | h
        · rw [h]; exact List.mem_cons_self x xs
        · exact List.mem_cons_of_mem x h
      have hbprop := (mem_diffsOf_iff d _ temp b.1 b.2).mp (by simpa using hbmem)
      rw [hgen, hhig]
      refine ⟨hbprop.1, b.2, hbprop.2, ?_⟩
      intro s' hs' nn hnn
      have : (s', nn) ∈ diffsOf d (binSlotsOf d bs) temp :=
        (mem_diffsOf_iff d _ temp s' nn).mpr ⟨hs', hnn⟩
      rw [hd] at this
      rcases List.mem_cons.mp this with h | h
      · have : x.2 = nn := by rw [← h]
        rw [← this]; exact hle
      · exact hall _ h
  · intro hnone hnobin
    have hfind : (nonBinSlotsOf d bs).find?
        (fun x => decide ((temp x).dedup.length > 1)) = none :=
      List.find?_eq_none.mpr (fun x hx => by simp [hpred x (hnone x hx)])
    have hdiffs : diffsOf d (binSlotsOf d bs) temp = [] := by
      unfold diffsOf
      rw [List.filterMap_eq_nil_iff]
      intro a ha
      rw [hnobin a ha]
      rfl
    unfold genNextRequest
    rw [hfind]
    unfold highestInfoGain
    rw [hdiffs]

/-- C4, witness: on concrete inputs the selector picks the discriminating
non-binary slot `ects` (phase 1), and with uniform non-binary columns picks
the balanced binary slot `semester` (phase 2). -/
theorem C4_selector_witness :
    genNextRequest testDomain bsEmpty
      (fun s => if s = "ects" then [some "2", some "4"] else [some "winter"]) = "ects" ∧
    genNextRequest testDomain bsEmpty
      (fun s => if s = "ects" then [some "2", some "2"]
        else [some "winter", some "summer"]) = "semester" := by
  constructor
  · exact (C4_selector testDomain bsEmpty _).1 [] "ects" []
      (by decide)
      ⟨some "2", by decide, some "4", by decide, by decide⟩
      (by intro x hx; simp at hx)
  · have h := ((C4_selector testDomain bsEmpty
      (fun s => if s = "ects" then [some "2", some "2"]
        else [some "winter", some "summer"])).2.1
      (by decide) "semester" (by decide) (by decide)).1
    revert h
    decide

/-- Every pair in `dictSet l k v` came from `l` or is the assignment. -/
theorem dictSet_mem {l : List (Slot × Value)} {k v : Slot} (s w : Slot)
    (h : (s, w) ∈ dictSet l k v) : (s, w) ∈ l ∨ (s = k ∧ w = v) := by
  unfold dictSet at h
  split_ifs at h with hany
  · obtain ⟨kv, hkv, he⟩ := List.mem_map.mp h
    by_cases hc : kv.1 == k
    · rw [if_pos hc] at he
      injection he with h1 h2
      exact Or.inr ⟨h1.symm, h2.symm⟩
    · rw [if_neg hc] at he
      exact Or.inl (he ▸ hkv)
  · rcases List.mem_append.mp h with h | h
    · exact Or.inl h
    · right
      simp at h
      exact ⟨h.1, h.2⟩

/-- The keys of `dictSet l k v` are those of `l` together with `k`. -/
theorem dictSet_key_iff {l : List (Slot × Value)} {k v : Slot} (s : Slot) :
    (∃ w, (s, w) ∈ dictSet l k v) ↔ s = k ∨ ∃ w, (s, w) ∈ l := by
  constructor
  · rintro ⟨w, hw⟩
    rcases dictSet_mem s w hw with h | h
    · exact Or.inr ⟨w, h⟩
    · exact Or.inl h.1
  · intro h
    unfold dictSet
    split_ifs with hany
    · by_cases hc : s = k
      · obtain ⟨kv, hkv, hck⟩ := List.any_eq_true.mp hany
        refine ⟨v, List.mem_map.mpr ⟨kv, hkv, ?_⟩⟩
        rw [if_pos hck, hc]
      · rcases h with rfl | ⟨w, hw⟩
        · exact absurd rfl hc
        · refine ⟨w, List.mem_map.mpr ⟨(s, w), hw, ?_⟩⟩
          rw [if_neg (by simpa using hc)]
    · rcases h with rfl | ⟨w, hw⟩
      · exact ⟨v, List.mem_append.mpr (Or.inr (by simp))⟩
      · exact ⟨w, List.mem_append.mpr (Or.inl hw)⟩

/-- `dictSet` preserves distinctness of keys. -/
theorem dictSet_keys_nodup {l : List (Slot × Value)} {k v : Slot}
    (h : (l.map Prod.fst).Nodup) : ((dictSet l k v).map Prod.fst).Nodup := by
  unfold dictSet
  split_ifs with hany
  · have : (l.map (fun kv => if kv.1 == k then (k, v) else kv)).map Prod.fst =
        l.map Prod.fst := by
      rw [List.map_map]
      refine List.map_congr_left ?_
      intro kv _
      by_cases hc : kv.1 == k
      · simp only [Function.comp_apply, if_pos hc]
        exact (eq_of_beq hc).symm
      · simp only [Function.comp_apply, if_neg hc]
    rw [this]
    exact h
  · have hk : ∀ kv ∈ l, kv.1 ≠ k := by
      intro kv hkv he
      exact hany (List.any_eq_true.mpr ⟨kv, hkv, by simp [he]⟩)
    rw [List.map_append]
    simp only [List.map_cons, List.map_nil]
    rw [List.nodup_append]
    refine ⟨h, List.nodup_singleton k, ?_⟩
    intro a ha hb
    simp at hb
    subst hb
    obtain ⟨kv, hkv, hfst⟩ := List.mem_map.mp ha
    exact hk kv hkv hfst

/-- `constraintsStep` is the guarded cell fold. -/
theorem constraintsStep_eq (d : Domain) (t : Slot) (cell : List (Value × ℚ))
    (acc : List (Slot × Value) × List Slot) :
    constraintsStep d acc (t, cell) =
      if t ∈ nonApplicable d then acc else cell.foldl (cellStep t) acc := rfl

/-- Cell fold, don't-care side: `s` ends in the don't-care list exactly when
it was already there or it is this slot and the cell activates `dontcare`. -/
theorem cellFold_dontcare (t : Slot) (cell : List (Value × ℚ)) :
    ∀ (acc : List (Slot × Value) × List Slot) (s : Slot),
      s ∈ (cell.foldl (cellStep t) acc).2 ↔
        s ∈ acc.2 ∨ (s = t ∧ ∃ p, ("dontcare", p) ∈ cell ∧ 0 < p) := by
  induction cell with
  | nil => intro acc s; simp
  | cons vp rest ih =>
    intro acc s
    obtain ⟨v, p⟩ := vp
    have hcons : (∃ q, ("dontcare", q) ∈ (v, p) :: rest ∧ 0 < q) ↔
        ((v = "dontcare" ∧ 0 < p) ∨ ∃ q, ("dontcare", q) ∈ rest ∧ 0 < q) := by
      constructor
      · rintro ⟨q, hq, h0⟩
        rcases List.mem_cons.mp hq with h | h
        · injection h with h1 h2
          exact Or.inl ⟨h1.symm, h2 ▸ h0⟩
        · exact Or.inr ⟨q, h, h0⟩
      · rintro (⟨hv, h0⟩ | ⟨q, hq, h0⟩)
        · exact ⟨p, List.mem_cons.mpr (Or.inl (by rw [hv])), h0⟩
        · exact ⟨q, List.mem_cons_of_mem _ hq, h0⟩
    rw [List.foldl_cons, ih, hcons]
    by_cases hp : (0 : ℚ) < p
    · by_cases hv : v = "dontcare"
      · have : cellStep t acc (v, p) = (acc.1, acc.2 ++ [t]) := by
          simp [cellStep, hp, hv]
        rw [this]
        simp only [List.mem_append, List.mem_singleton]
        constructor
        · rintro ((h | h) | h)
          · exact Or.inl h
          · exact Or.inr ⟨h, Or.inl ⟨hv, hp⟩⟩
          · exact Or.inr ⟨h.1, Or.inr h.2⟩
        · rintro (h | ⟨rfl, h | h⟩)
          · exact Or.inl (Or.inl h)
          · exact Or.inl (Or.inr rfl)
          · exact Or.inr ⟨rfl, h⟩
      · have : (cellStep t acc (v, p)).2 = acc.2 := by
          by_cases hn : v ≠ "**NONE**" <;> simp [cellStep, hp, hv, hn]
        rw [this]
        constructor
        · rintro (h | ⟨rfl, h⟩)
          · exact Or.inl h
          · exact Or.inr ⟨rfl, Or.inr h⟩
        · rintro (h | ⟨rfl, ⟨hv', _⟩ | h⟩)
          · exact Or.inl h
          · exact absurd hv' hv
          · exact Or.inr ⟨rfl, h⟩
    · have : cellStep t acc (v, p) = acc := by simp [cellStep, hp]
      rw [this]
      constructor
      · rintro (h | ⟨rfl, h⟩)
        · exact Or.inl h
        · exact Or.inr ⟨rfl, Or.inr h⟩
      · rintro (h | ⟨rfl, ⟨_, hp'⟩ | h⟩)
        · exact Or.inl h
        · exact absurd hp' hp
        · exact Or.inr ⟨rfl, h⟩

/-- Cell fold, constraints side, soundness: every recorded constraint pair
was already present or stems from an active non-sentinel value of this cell. -/
theorem cellFold_constraints_sound (t : Slot) (cell : List (Value × ℚ)) :
    ∀ (acc : List (Slot × Value) × List Slot) (s w : Slot),
      (s, w) ∈ (cell.foldl (cellStep t) acc).1 →
      (s, w) ∈ acc.1 ∨
        (s = t ∧ ∃ p, (w, p) ∈ cell ∧ 0 < p ∧ w ≠ "dontcare" ∧ w ≠ "**NONE**") := by
  induction cell with
  | nil =>
    intro acc s w h
    exact Or.inl (by simpa using h)
  | cons vp rest ih =>
    intro acc s w h
    obtain ⟨v, p⟩ := vp
    rw [List.foldl_cons] at h
    rcases ih (cellStep t acc (v, p)) s w h with h' | ⟨rfl, q, hq, h0, hd, hn⟩
    · by_cases hp : (0 : ℚ) < p
      · by_cases hv : v = "dontcare"
        · rw [show cellStep t acc (v, p) = (acc.1, acc.2 ++ [t]) from by
            simp [cellStep, hp, hv]] at h'
          exact Or.inl h'
        · by_cases hnn : v ≠ "**NONE**"
          · rw [show (cellStep t acc (v, p)).1 = dictSet acc.1 t v from by
              simp [cellStep, hp, hv, hnn]] at h'
            rcases dictSet_mem s w h' with h2 | ⟨rfl, rfl⟩
            · exact Or.inl h2
            · exact Or.inr ⟨rfl, p, List.mem_cons_self _ _, hp, hv, hnn⟩
          · rw [show cellStep t acc (v, p) = acc from by
              simp [cellStep, hp, hv, not_not.mp hnn]] at h'
            exact Or.inl h'
      · rw [show cellStep t acc (v, p) = acc from by simp [cellStep, hp]] at h'
        exact Or.inl h'
    · exact Or.inr ⟨rfl, q, List.mem_cons_of_mem _ hq, h0, hd, hn⟩

/-- Cell fold, constraints side, key presence: `s` holds a constraint after
the fold exactly when it already did, or it is this slot and the cell holds an
active non-sentinel value. -/
theorem cellFold_keys (t : Slot) (cell : List (Value × ℚ)) :
    ∀ (acc : List (Slot × Value) × List Slot) (s : Slot),
      (∃ w, (s, w) ∈ (cell.foldl (cellStep t) acc).1) ↔
        (∃ w, (s, w) ∈ acc.1) ∨
          (s = t ∧ ∃ w p, (w, p) ∈ cell ∧ 0 < p ∧ w ≠ "dontcare" ∧ w ≠ "**NONE**") := by
  induction cell with
  | nil => intro acc s; simp
  | cons vp rest ih =>
    intro acc s
    obtain ⟨v, p⟩ := vp
    rw [List.foldl_cons, ih]
    by_cases hp : (0 : ℚ) < p
    · by_cases hv : v = "dontcare"
      · rw [show (cellStep t acc (v, p)).1 = acc.1 from by simp [cellStep, hp, hv]]
        constructor
        · rintro (h | ⟨rfl, w, q, hq, h0, hd, hn⟩)
          · exact Or.inl h
          · exact Or.inr ⟨rfl, w, q, List.mem_cons_of_mem _ hq, h0, hd, hn⟩
        · rintro (h | ⟨rfl, w, q, hq, h0, hd, hn⟩)
          · exact Or.inl h
          · rcases List.mem_cons.mp hq with h2 | h2
            · injection h2 with h21 h22
              exact absurd (h21.trans hv) hd
            · exact Or.inr ⟨rfl, w, q, h2, h0, hd, hn⟩
      · by_cases hnn : v ≠ "**NONE**"
        · rw [show (cellStep t acc (v, p)).1 = dictSet acc.1 t v from by
            simp [cellStep, hp, hv, hnn]]
          constructor
          · rintro (h | ⟨rfl, w, q, hq, h0, hd, hn⟩)
            · rcases (dictSet_key_iff s).mp h with rfl | h2
              · exact Or.inr ⟨rfl, v, p, List.mem_cons_self _ _, hp, hv, hnn⟩
              · exact Or.inl h2
            · exact Or.inr ⟨rfl, w, q, List.mem_cons_of_mem _ hq, h0, hd, hn⟩
          · rintro (h | ⟨rfl, w, q, hq, h0, hd, hn⟩)
            · exact Or.inl ((dictSet_key_iff s).mpr (Or.inr h))
            · exact Or.inl ((dictSet_key_iff _).mpr (Or.inl rfl))
        · rw [show cellStep t acc (v, p) = acc from by
            simp [cellStep, hp, hv, not_not.mp hnn]]
          constructor
          · rintro (h | ⟨rfl, w, q, hq, h0, hd, hn⟩)
            · exact Or.inl h
            · exact Or.inr ⟨rfl, w, q, List.mem_cons_of_mem _ hq, h0, hd, hn⟩
          · rintro (h | ⟨rfl, w, q, hq, h0, hd, hn⟩)
            · exact Or.inl h
            · rcases List.mem_cons.mp hq with h2 | h2
              · injection h2 with h21 h22
                exact absurd (h21.trans (not_not.mp hnn)) hn
              · exact Or.inr ⟨rfl, w, q, h2, h0, hd, hn⟩
    · rw [show cellStep t acc (v, p) = acc from by simp [cellStep, hp]]
      constructor
      · rintro (h | ⟨rfl, w, q, hq, h0, hd, hn⟩)
        · exact Or.inl h
        · exact Or.inr ⟨rfl, w, q, List.mem_cons_of_mem _ hq, h0, hd, hn⟩
      · rintro (h | ⟨rfl, w, q, hq, h0, hd, hn⟩)
        · exact Or.inl h
        · rcases List.mem_cons.mp hq with h2 | h2
          · injection h2 with h21 h22
            exact absurd (h22 ▸ h0) hp
          · exact Or.inr ⟨rfl, w, q, h2, h0, hd, hn⟩

/-- Cell fold, constraints side: distinct keys are preserved. -/
theorem cellFold_nodup (t : Slot) (cell : List (Value × ℚ)) :
    ∀ acc : List (Slot × Value) × List Slot,
      (acc.1.map Prod.fst).Nodup →
      ((cell.foldl (cellStep t) acc).1.map Prod.fst).Nodup := by
  induction cell with
  | nil => intro acc h; simpa using h
  | cons vp rest ih =>
    intro acc h
    rw [List.foldl_cons]
    apply ih
    obtain ⟨v, p⟩ := vp
    unfold cellStep
    split_ifs <;> first
      | exact h
      | exact dictSet_keys_nodup h

/-- Beliefs fold, don't-care side. -/
theorem beliefsFold_dontcare (d : Domain) (l : List (Slot × List (Value × ℚ))) :
    ∀ (acc : List (Slot × Value) × List Slot) (s : Slot),
      s ∈ (l.foldl (constraintsStep d) acc).2 ↔
        s ∈ acc.2 ∨ (s ∉ nonApplicable d ∧
          ∃ cell, (s, cell) ∈ l ∧ ∃ p, ("dontcare", p) ∈ cell ∧ 0 < p) := by
  induction l with
  | nil => intro acc s; simp
  | cons entry rest ih =>
    intro acc s
    obtain ⟨t, cell₀⟩ := entry
    rw [List.foldl_cons, ih]
    by_cases hna : t ∈ nonApplicable d
    · rw [constraintsStep_eq, if_pos hna]
      constructor
      · rintro (h | ⟨hs, cell, hc, hp⟩)
        · exact Or.inl h
        · exact Or.inr ⟨hs, cell, List.mem_cons_of_mem _ hc, hp⟩
      · rintro (h | ⟨hs, cell, hc, hp⟩)
        · exact Or.inl h
        · rcases List.mem_cons.mp hc with h2 | h2
          · injection h2 with h21 h22
            exact absurd (h21 ▸ hna) hs
          · exact Or.inr ⟨hs, cell, h2, hp⟩
    · rw [constraintsStep_eq, if_neg hna, cellFold_dontcare]
      constructor
      · rintro ((h | ⟨rfl, hp⟩) | ⟨hs, cell, hc, hp⟩)
        · exact Or.inl h
        · exact Or.inr ⟨hna, cell₀, List.mem_cons_self _ _, hp⟩
        · exact Or.inr ⟨hs, cell, List.mem_cons_of_mem _ hc, hp⟩
      · rintro (h | ⟨hs, cell, hc, hp⟩)
        · exact Or.inl (Or.inl h)
        · rcases List.mem_cons.mp hc with h2 | h2
          · injection h2 with h21 h22
            exact Or.inl (Or.inr ⟨h21, h22 ▸ hp⟩)
          · exact Or.inr ⟨hs, cell, h2, hp⟩

/-- Beliefs fold, constraints soundness. -/
theorem beliefsFold_sound (d : Domain) (l : List (Slot × List (Value × ℚ))) :
    ∀ (acc : List (Slot × Value) × List Slot) (s w : Slot),
      (s, w) ∈ (l.foldl (constraintsStep d) acc).1 →
        (s, w) ∈ acc.1 ∨ (s ∉ nonApplicable d ∧
          ∃ cell p, (s, cell) ∈ l ∧ (w, p) ∈ cell ∧ 0 < p ∧
            w ≠ "dontcare" ∧ w ≠ "**NONE**") := by
  induction l with
  | nil =>
    intro acc s w h
    exact Or.inl (by simpa using h)
  | cons entry rest ih =>
    intro acc s w h
    obtain ⟨t, cell₀⟩ := entry
    rw [List.foldl_cons] at h
    rcases ih _ s w h with h' | ⟨hs, cell, q, hc, hw, hp, hd, hn⟩
    · by_cases hna : t ∈ nonApplicable d
      · rw [constraintsStep_eq, if_pos hna] at h'
        exact Or.inl h'
      · rw [constraintsStep_eq, if_neg hna] at h'
        rcases cellFold_constraints_sound t cell₀ acc s w h' with h2 | ⟨rfl, q, hq, hp, hd, hn⟩
        · exact Or.inl h2
        · exact Or.inr ⟨hna, cell₀, q, List.mem_cons_self _ _, hq, hp, hd, hn⟩
    · exact Or.inr ⟨hs, cell, q, List.mem_cons_of_mem _ hc, hw, hp, hd, hn⟩

/-- Beliefs fold, constraint-key presence. -/
theorem beliefsFold_keys (d : Domain) (l : List (Slot × List (Value × ℚ))) :
    ∀ (acc : List (Slot × Value) × List Slot) (s : Slot),
      (∃ w, (s, w) ∈ (l.foldl (constraintsStep d) acc).1) ↔
        (∃ w, (s, w) ∈ acc.1) ∨ (s ∉ nonApplicable d ∧
          ∃ cell, (s, cell) ∈ l ∧ ∃ w p, (w, p) ∈ cell ∧ 0 < p ∧
            w ≠ "dontcare" ∧ w ≠ "**NONE**") := by
  induction l with
  | nil => intro acc s; simp
  | cons entry rest ih =>
    intro acc s
    obtain ⟨t, cell₀⟩ := entry
    rw [List.foldl_cons, ih]
    by_cases hna : t ∈ nonApplicable d
    · rw [constraintsStep_eq, if_pos hna]
      constructor
      · rintro (h | ⟨hs, cell, hc, hrest⟩)
        · exact Or.inl h
        · exact Or.inr ⟨hs, cell, List.mem_cons_of_mem _ hc, hrest⟩
      · rintro (h | ⟨hs, cell, hc, hrest⟩)
        · exact Or.inl h
        · rcases List.mem_cons.mp hc with h2 | h2
          · injection h2 with h21 h22
            exact absurd (h21 ▸ hna) hs
          · exact Or.inr ⟨hs, cell, h2, hrest⟩
    · rw [constraintsStep_eq, if_neg hna, cellFold_keys]
      constructor
      · rintro ((h | ⟨rfl, hrest⟩) | ⟨hs, cell, hc, hrest⟩)
        · exact Or.inl h
        · exact Or.inr ⟨hna, cell₀, List.mem_cons_self _ _, hrest⟩
        · exact Or.inr ⟨hs, cell, List.mem_cons_of_mem _ hc, hrest⟩
      · rintro (h | ⟨hs, cell, hc, hrest⟩)
        · exact Or.inl (Or.inl h)
        · rcases List.mem_cons.mp hc with h2 | h2
          · injection h2 with h21 h22
            exact Or.inl (Or.inr ⟨h21, h22 ▸ hrest⟩)
          · exact Or.inr ⟨hs, cell, h2, hrest⟩

/-- Beliefs fold: constraint keys stay distinct. -/
theorem beliefsFold_nodup (d : Domain) (l : List (Slot × List (Value × ℚ))) :
    ∀ acc : List (Slot × Value) × List Slot,
      (acc.1.map Prod.fst).Nodup →
      ((l.foldl (constraintsStep d) acc).1.map Prod.fst).Nodup := by
  induction l with
  | nil => intro acc h; simpa using h
  | cons entry rest ih =>
    intro acc h
    rw [List.foldl_cons]
    apply ih
    obtain ⟨t, cell₀⟩ := entry
    rw [constraintsStep_eq]
    split_ifs with hna
    · exact h
    · exact cellFold_nodup t cell₀ acc h

/-- The don't-care list of `_get_constraints` holds exactly the non-excluded
slots with an active `dontcare` value. -/
theorem getConstraints_dontcare_iff (d : Domain) (bs : BeliefState) (s : Slot) :
    s ∈ (getConstraints d bs).2 ↔
      s ∉ nonApplicable d ∧
        ∃ cell, (s, cell) ∈ bs.beliefs ∧ ∃ p, ("dontcare", p) ∈ cell ∧ 0 < p := by
  rw [getConstraints, beliefsFold_dontcare]
  simp

/-- Every recorded constraint stems from an active non-sentinel value of a
non-excluded belief slot. -/
theorem getConstraints_sound (d : Domain) (bs : BeliefState) (s w : Slot)
    (h : (s, w) ∈ (getConstraints d bs).1) :
    s ∉ nonApplicable d ∧
      ∃ cell p, (s, cell) ∈ bs.beliefs ∧ (w, p) ∈ cell ∧ 0 < p ∧
        w ≠ "dontcare" ∧ w ≠ "**NONE**" := by
  rcases beliefsFold_sound d bs.beliefs ([], []) s w h with h' | h'
  · simp at h'
  · exact h'

/-- A slot carries a constraint exactly when it is not excluded and holds an
active non-sentinel value. -/
theorem getConstraints_keys_iff (d : Domain) (bs : BeliefState) (s : Slot) :
    (∃ w, (s, w) ∈ (getConstraints d bs).1) ↔
      s ∉ nonApplicable d ∧
        ∃ cell, (s, cell) ∈ bs.beliefs ∧ ∃ w p, (w, p) ∈ cell ∧ 0 < p ∧
          w ≠ "dontcare" ∧ w ≠ "**NONE**" := by
  rw [getConstraints, beliefsFold_keys]
  simp

/-- The constraint map of `_get_constraints` has distinct keys. -/
theorem getConstraints_keys_nodup (d : Domain) (bs : BeliefState) :
    (((getConstraints d bs).1).map Prod.fst).Nodup := by
  rw [getConstraints]
  exact beliefsFold_nodup d bs.beliefs ([], []) (by simp)

/-- `add_value` appends to the addressed slot's value list and leaves every
other slot's value list unchanged. -/
theorem getValues_addValue (a : SysAct) (k k' : Option Slot) (v : Option Value) :
    (a.addValue k v).getValues k' =
      if k' = k then a.getValues k' ++ [v] else a.getValues k' := by
  unfold SysAct.addValue SysAct.getValues
  by_cases hany : a.slotValues.any (fun kv => kv.1 == k)
  · rw [if_pos hany]
    simp only [List.find?_map]
    have hcomp : ((fun kv : Option Slot × List (Option Value) => kv.1 == k') ∘
        (fun kv => if kv.1 == k then (kv.1, kv.2 ++ [v]) else kv)) =
        (fun kv : Option Slot × List (Option Value) => kv.1 == k') := by
      funext kv
      by_cases h : kv.1 = k <;> simp [h]
    rw [hcomp]
    by_cases hk : k' = k
    · subst hk
      have hsome : (a.slotValues.find? (fun kv => kv.1 == k')).isSome := by
        rw [List.find?_isSome]
        simpa using List.any_eq_true.mp hany
      obtain ⟨kv, hkv⟩ := Option.isSome_iff_exists.mp hsome
      have hkk := List.find?_some hkv
      simp only [beq_iff_eq] at hkk
      rw [hkv]
      simp [hkk]
    · rw [if_neg hk]
      cases hfind : a.slotValues.find? (fun kv => kv.1 == k') with
      | none => simp
      | some kv =>
        have hkk := List.find?_some hfind
        simp only [beq_iff_eq] at hkk
        have hne : ¬ kv.1 = k := by
          rw [hkk]
          exact hk
        simp [hne]
  · rw [if_neg hany]
    simp only [List.find?_append]
    have hnone : a.slotValues.find? (fun kv => kv.1 == k) = none := by
      rw [List.find?_eq_none]
      intro kv hkv h
      exact hany (List.any_eq_true.mpr ⟨kv, hkv, h⟩)
    by_cases hk : k' = k
    · subst hk
      rw [hnone]
      simp
    · have hne : ¬ ((k, [v]) : Option Slot × List (Option Value)).1 = k' := by
        simpa using fun h => hk h.symm
      cases hfind : a.slotValues.find? (fun kv => kv.1 == k') with
      | none => simp [List.find?_cons, hne, hk]
      | some kv => simp [hk]

/-- Folding `add_value` over pairs with fresh, pairwise-distinct keys appends
them in order, one singleton value list each. -/
theorem foldl_addValue_fresh (cs : List (Slot × Value)) :
    ∀ act : SysAct, (∀ cv ∈ cs, ∀ kv ∈ act.slotValues, kv.1 ≠ some cv.1) →
      (cs.map Prod.fst).Nodup →
      cs.foldl (fun a cv => a.addValue (some cv.1) (some cv.2)) act =
        ⟨act.type, act.slotValues ++ cs.map (fun cv => (some cv.1, [some cv.2]))⟩ := by
  induction cs with
  | nil => intro act _ _; simp
  | cons c rest ih =>
    intro act hfresh hnodup
    rw [List.foldl_cons]
    have hadd : act.addValue (some c.1) (some c.2) =
        ⟨act.type, act.slotValues ++ [(some c.1, [some c.2])]⟩ := by
      unfold SysAct.addValue
      rw [if_neg ?hno]
      case hno =>
        intro hany
        obtain ⟨kv, hkv, hc⟩ := List.any_eq_true.mp hany
        exact hfresh c (List.mem_cons_self _ _) kv hkv (eq_of_beq hc)
    have hn := hnodup
    rw [List.map_cons, List.nodup_cons] at hn
    rw [hadd, ih]
    · simp
    · intro cv hcv kv hkv
      rcases List.mem_append.mp hkv with h | h
      · exact hfresh cv (List.mem_cons_of_mem _ hcv) kv h
      · simp at h
        rw [h]
        intro he
        injection he with he'
        refine hn.1 ?_
        rw [he']
        exact List.mem_map.mpr ⟨cv, hcv, rfl⟩
    · exact hn.2

/-- C5, counterexample: a `byconstraints` turn whose query returns no rows
reaches inform materialization (the resulting act is `InformByName`), yet the
suggestion list is left as it was — it is not replaced by the (empty) query
results and the cursor is not reset to 0. -/
theorem C5_counterexample :
    getMethod bsCon = some "byconstraints" ∧
    queryDb testDomain ⟨[rowA], 3⟩ bsCon = [] ∧
    (nextAction testDomain ⟨[rowA], 3⟩ bsCon).2.2.type = SysActionType.InformByName ∧
    (nextAction testDomain ⟨[rowA], 3⟩ bsCon).1 = ⟨[rowA], 3⟩ ∧
    (nextAction testDomain ⟨[rowA], 3⟩ bsCon).1.currentSuggestions ≠
      queryDb testDomain ⟨[rowA], 3⟩ bsCon := by
  decide

/-- C5, amended: when the results are nonempty, the `byconstraints` inform
materialization replaces the suggestion list with the full results (cursor
reset to 0) and the act carries the first result's primary-key value followed
by every active constraint; when the results are empty, the suggestion list
and cursor are left unchanged and the act carries `"none"` followed by every
active constraint; and for the one-row scenario the full turn yields
`InformByName` with the row's primary key plus `semester = winter`. -/
theorem C5_amended :
    (∀ (d : Domain) (st : PolicyState) (bs : BeliefState) (qRes : List Record),
      qRes ≠ [] →
      convertInformByConstraints d st bs qRes (rawSysAct SysActionType.InformByName) =
        (⟨qRes, 0⟩,
         ⟨SysActionType.InformByName,
          (some d.primaryKey, [rowGet qRes.headI d.primaryKey]) ::
            (getConstraints d bs).1.map (fun cv => (some cv.1, [some cv.2]))⟩)) ∧
    (∀ (d : Domain) (st : PolicyState) (bs : BeliefState),
      convertInformByConstraints d st bs [] (rawSysAct SysActionType.InformByName) =
        (st,
         ⟨SysActionType.InformByName,
          (some d.primaryKey, [some "none"]) ::
            (getConstraints d bs).1.map (fun cv => (some cv.1, [some cv.2]))⟩)) ∧
    nextAction oneRowDomain ⟨[], 5⟩ bsCon =
      (⟨[rowA], 0⟩,
       { bsCon with lastInformedPrimKeyVal := some (some "a") },
       ⟨SysActionType.InformByName,
        [(some "name", [some "a"]), (some "semester", [some "winter"])]⟩) := by
  have hfresh : ∀ (d : Domain) (bs : BeliefState) (w : Option Value),
      ∀ cv ∈ (getConstraints d bs).1,
        ∀ kv ∈ ([(some d.primaryKey, [w])] :
            List (Option Slot × List (Option Value))), kv.1 ≠ some cv.1 := by
    intro d bs w cv hcv kv hkv
    simp at hkv
    rw [hkv]
    intro he
    injection he with he'
    have := (getConstraints_sound d bs cv.1 cv.2 (by simpa using hcv)).1
    apply this
    rw [← he']
    simp [nonApplicable]
  refine ⟨?_, ?_, by decide⟩
  · intro d st bs qRes hne
    obtain ⟨r, rs, rfl⟩ := List.exists_cons_of_ne_nil hne
    show convertInformByConstraints d st bs (r :: rs) _ = _
    unfold convertInformByConstraints
    simp only []
    have haddv : (rawSysAct SysActionType.InformByName).addValue
        (some d.primaryKey) (rowGet r d.primaryKey) =
        ⟨SysActionType.InformByName, [(some d.primaryKey, [rowGet r d.primaryKey])]⟩ := by
      simp [SysAct.addValue, rawSysAct]
    rw [haddv]
    unfold appendConstraints
    rw [foldl_addValue_fresh _ _ (hfresh d bs _) (getConstraints_keys_nodup d bs)]
    simp
  · intro d st bs
    unfold convertInformByConstraints
    simp only []
    have haddv : (rawSysAct SysActionType.InformByName).addValue
        (some d.primaryKey) (some "none") =
        ⟨SysActionType.InformByName, [(some d.primaryKey, [some "none"])]⟩ := by
      simp [SysAct.addValue, rawSysAct]
    rw [haddv]
    unfold appendConstraints
    rw [foldl_addValue_fresh _ _ (hfresh d bs _) (getConstraints_keys_nodup d bs)]
    simp

/-- C5, witness: the nonempty-results clause of the amended statement applied
to the one-row result set. -/
theorem C5_amended_witness :
    convertInformByConstraints oneRowDomain ⟨[], 5⟩ bsCon [rowA]
        (rawSysAct SysActionType.InformByName) =
      (⟨[rowA], 0⟩,
       ⟨SysActionType.InformByName,
        (some oneRowDomain.primaryKey,
          [rowGet ([rowA] : List Record).headI oneRowDomain.primaryKey]) ::
          (getConstraints oneRowDomain bsCon).1.map
            (fun cv => (some cv.1, [some cv.2]))⟩) :=
  C5_amended.1 oneRowDomain ⟨[], 5⟩ bsCon [rowA] (by decide)

/-- C9, counterexample: a belief slot literally named `lastInformedPrimKeyVal`
with an active non-sentinel value is skipped by the constraint extraction, even
though it is none of the four exclusions the claim lists (`requested`,
`discourseAct`, `method`, the primary-key slot). -/
theorem C9_counterexample :
    getConstraints testDomain bsLIP = ([], []) ∧
    "lastInformedPrimKeyVal" ∉
      (["requested", "discourseAct", "method", testDomain.primaryKey] : List Slot) ∧
    ∃ p, ("x", p) ∈ getBelief bsLIP "lastInformedPrimKeyVal" ∧ 0 < p := by
  refine ⟨by decide, by decide, 1, by decide, by decide⟩

/-- C9, amended: constraint extraction scans all belief slots except
`requested`, `discourseAct`, `method`, `lastInformedPrimKeyVal`, and the
primary-key slot (`nonApplicable`); every recorded constraint value is an
active (probability > 0) non-sentinel value of its slot; a slot enters the
don't-care set exactly when it is not excluded and `dontcare` is active in its
cell; a slot carries a constraint exactly when it is not excluded and has an
active non-sentinel value; zero-probability values never contribute. -/
theorem C9_amended (d : Domain) (bs : BeliefState) :
    (∀ s w, (s, w) ∈ (getConstraints d bs).1 →
      s ∉ nonApplicable d ∧ w ≠ "dontcare" ∧ w ≠ "**NONE**" ∧
        ∃ cell p, (s, cell) ∈ bs.beliefs ∧ (w, p) ∈ cell ∧ 0 < p) ∧
    (∀ s, s ∈ (getConstraints d bs).2 ↔
      s ∉ nonApplicable d ∧
        ∃ cell, (s, cell) ∈ bs.beliefs ∧ ∃ p, ("dontcare", p) ∈ cell ∧ 0 < p) ∧
    (∀ s, (∃ w, (s, w) ∈ (getConstraints d bs).1) ↔
      s ∉ nonApplicable d ∧
        ∃ cell, (s, cell) ∈ bs.beliefs ∧
          ∃ w p, (w, p) ∈ cell ∧ 0 < p ∧ w ≠ "dontcare" ∧ w ≠ "**NONE**") := by
  refine ⟨?_, ?_, ?_⟩
  · intro s w h
    obtain ⟨hna, cell, p, hc, hw, hp, hd, hn⟩ := getConstraints_sound d bs s w h
    exact ⟨hna, hd, hn, cell, p, hc, hw, hp⟩
  · intro s
    exact getConstraints_dontcare_iff d bs s
  · intro s
    exact getConstraints_keys_iff d bs s

/-- C9, witness: the soundness clause applied to the concrete constraint
`semester = winter` of `bsCon`. -/
theorem C9_amended_witness :
    "semester" ∉ nonApplicable testDomain ∧
    "winter" ≠ "dontcare" ∧ "winter" ≠ "**NONE**" ∧
    ∃ cell p, ("semester", cell) ∈ bsCon.beliefs ∧ ("winter", p) ∈ cell ∧ 0 < p :=
  (C9_amended testDomain bsCon).1 "semester" "winter" (by decide)

/-- C6, counterexample: on the `byprimarykey` early exit with no resolvable
entity, the returned `InformByName` act's primary-key slot carries the null
value (Python `None`), not the literal string `"none"`, and that null — not
`"none"` — is what gets recorded into `system.lastInformedPrimKeyVal`. -/
theorem C6_counterexample :
    (nextAction testDomain ⟨[], 0⟩ bsPrimNoReq).2.2.type = SysActionType.InformByName ∧
    (nextAction testDomain ⟨[], 0⟩ bsPrimNoReq).2.2.getValues (some "name") = [none] ∧
    ([none] : List (Option Value)) ≠ [some "none"] ∧
    (nextAction testDomain ⟨[], 0⟩ bsPrimNoReq).2.1.lastInformedPrimKeyVal = some none := by
  decide

/-- C6, amended: on the `byprimarykey` early exit the act carries exactly the
resolved name — which may be null rather than the string `"none"` — and that
possibly-null value is recorded into `system.lastInformedPrimKeyVal`; on every
other path whose resulting action is `InformByName`, the act ends up with a
nonempty primary-key value list, and either its first value is recorded, or
(when the conversion produced no primary-key value) the literal `"none"` is
added to the act without being recorded. -/
theorem C6_amended (d : Domain) (st : PolicyState) (bs : BeliefState) :
    ((getMethod bs = some "byprimarykey" ∧ getRequestedSlots bs = []) →
      (nextAction d st bs).2.2.getValues (some d.primaryKey) = [getName d st bs] ∧
      (nextAction d st bs).2.1.lastInformedPrimKeyVal = some (getName d st bs)) ∧
    ((nextAction d st bs).2.2.type = SysActionType.InformByName →
      ∃ w l, (nextAction d st bs).2.2.getValues (some d.primaryKey) = w :: l ∧
        ((nextAction d st bs).2.1.lastInformedPrimKeyVal = some w ∨
         ((nextAction d st bs).2.1.lastInformedPrimKeyVal = bs.lastInformedPrimKeyVal ∧
          w = some "none" ∧ l = []))) := by
  constructor
  · rintro ⟨hm, hr⟩
    have h1 : ¬ getMethod bs = some "none" := by rw [hm]; simp
    have h2 : ¬ (getMethod bs = some "byalternatives" ∧
        (getConstraints d bs).1 = []) := by
      rw [hm]; simp
    have heq : nextAction d st bs =
        (st, { bs with lastInformedPrimKeyVal := some (getName d st bs) },
         (rawSysAct SysActionType.InformByName).addValue
           (some d.primaryKey) (getName d st bs)) := by
      simp [nextAction, h1, h2, hm, hr]
    rw [heq]
    exact ⟨by simp [SysAct.addValue, SysAct.getValues, rawSysAct], rfl⟩
  · intro htype
    by_cases h1 : getMethod bs = some "none"
    · rw [show nextAction d st bs = (st, bs, badAct) from by
        simp [nextAction, h1]] at htype
      exact absurd htype (by simp [badAct, rawSysAct])
    · by_cases h2 : getMethod bs = some "byalternatives" ∧ (getConstraints d bs).1 = []
      · rw [show nextAction d st bs = (st, bs, badAct) from by
          simp [nextAction, h1, h2]] at htype
        exact absurd htype (by simp [badAct, rawSysAct])
      · by_cases h3 : getMethod bs = some "byprimarykey" ∧ getRequestedSlots bs = []
        · have heq : nextAction d st bs =
              (st, { bs with lastInformedPrimKeyVal := some (getName d st bs) },
               (rawSysAct SysActionType.InformByName).addValue
                 (some d.primaryKey) (getName d st bs)) := by
            simp [nextAction, h1, h2, h3]
          rw [heq]
          refine ⟨getName d st bs, [], ?_, Or.inl rfl⟩
          simp [SysAct.addValue, SysAct.getValues, rawSysAct]
        · have heq : nextAction d st bs = queryPath d st bs := by
            simp [nextAction, h1, h2, h3]
          rw [heq] at htype ⊢
          by_cases hreq : (rawAction d bs (queryDb d st bs) (getMethod bs)).type =
              SysActionType.Request
          · exfalso
            have h22 : (queryPath d st bs).2.2 =
                rawAction d bs (queryDb d st bs) (getMethod bs) := by
              simp only [queryPath]
              rw [if_pos hreq]
              split_ifs <;> rfl
            rw [h22, hreq] at htype
            exact absurd htype (by simp)
          · by_cases hinf : (rawAction d bs (queryDb d st bs) (getMethod bs)).type =
                SysActionType.InformByName
            · have heq2 : queryPath d st bs =
                  informPost d bs (convertInform d st bs (getMethod bs) (queryDb d st bs)
                    (rawAction d bs (queryDb d st bs) (getMethod bs))) := by
                simp [queryPath, hreq, hinf]
              rw [heq2] at htype ⊢
              rcases hv : (convertInform d st bs (getMethod bs) (queryDb d st bs)
                  (rawAction d bs (queryDb d st bs) (getMethod bs))).2.getValues
                  (some d.primaryKey) with _ | ⟨w, l⟩
              · have heq3 : informPost d bs (convertInform d st bs (getMethod bs)
                    (queryDb d st bs) (rawAction d bs (queryDb d st bs) (getMethod bs))) =
                    ((convertInform d st bs (getMethod bs) (queryDb d st bs)
                      (rawAction d bs (queryDb d st bs) (getMethod bs))).1, bs,
                     (convertInform d st bs (getMethod bs) (queryDb d st bs)
                       (rawAction d bs (queryDb d st bs)
                         (getMethod bs))).2.addValue (some d.primaryKey) (some "none")) := by
                  simp [informPost, hv]
                rw [heq3]
                refine ⟨some "none", [], ?_, Or.inr ⟨rfl, rfl, rfl⟩⟩
                rw [getValues_addValue]
                simp [hv]
              · have heq3 : informPost d bs (convertInform d st bs (getMethod bs)
                    (queryDb d st bs) (rawAction d bs (queryDb d st bs) (getMethod bs))) =
                    ((convertInform d st bs (getMethod bs) (queryDb d st bs)
                      (rawAction d bs (queryDb d st bs) (getMethod bs))).1,
                     { bs with lastInformedPrimKeyVal := some w },
                     (convertInform d st bs (getMethod bs) (queryDb d st bs)
                       (rawAction d bs (queryDb d st bs) (getMethod bs))).2) := by
                  simp [informPost, hv]
                rw [heq3]
                exact ⟨w, l, hv, Or.inl rfl⟩
            · exfalso
              rw [show queryPath d st bs =
                  (st, bs, rawAction d bs (queryDb d st bs) (getMethod bs)) from by
                simp [queryPath, hreq, hinf]] at htype
              exact hinf htype

/-- C6, witness: the early-exit clause of the amended statement applied to
the no-name `byprimarykey` state. -/
theorem C6_amended_witness :
    (nextAction testDomain ⟨[], 0⟩ bsPrimNoReq).2.2.getValues (some "name") =
      [getName testDomain ⟨[], 0⟩ bsPrimNoReq] ∧
    (nextAction testDomain ⟨[], 0⟩ bsPrimNoReq).2.1.lastInformedPrimKeyVal =
      some (getName testDomain ⟨[], 0⟩ bsPrimNoReq) :=
  (C6_amended testDomain ⟨[], 0⟩ bsPrimNoReq).1 ⟨by decide, by decide⟩

/-- With only non-null act types, the collection loop of
`_check_for_gen_actions` yields exactly the list of act types. -/
theorem collect_types_eq (turn : Nat) :
    ∀ acts : List UserAct, (∀ a ∈ acts, a.type ≠ none) →
      ∀ acc : List (Option UserActionType),
        acts.foldl (fun acc a =>
          if a.type ≠ none ∨ turn = 0 then acc ++ [a.type] else acc) acc =
          acc ++ acts.map UserAct.type := by
  intro acts
  induction acts with
  | nil => intro _ acc; simp
  | cons a rest ih =>
    intro hall acc
    rw [List.foldl_cons, if_pos (Or.inl (hall a (List.mem_cons_self a rest)))]
    rw [ih (fun x hx => hall x (List.mem_cons_of_mem a hx)) (acc ++ [a.type])]
    simp

/-- C7, counterexample: on the act list `[Bad, Bad, Thanks]` the filter
removes only one occurrence of `Bad`, so `Bad` survives alongside `Thanks` —
the claim's retained set (just `Thanks`, since something else co-occurs with
`Bad`) is wrong. -/
theorem C7_counterexample :
    checkForGenActions 1 [⟨some UserActionType.Bad⟩, ⟨some UserActionType.Bad⟩,
        ⟨some UserActionType.Thanks⟩] =
      [some UserActionType.Bad, some UserActionType.Thanks] ∧
    some UserActionType.Bad ∈ checkForGenActions 1 [⟨some UserActionType.Bad⟩,
      ⟨some UserActionType.Bad⟩, ⟨some UserActionType.Thanks⟩] ∧
    checkForGenActions 1 [⟨some UserActionType.Bad⟩, ⟨some UserActionType.Bad⟩,
        ⟨some UserActionType.Thanks⟩] ≠
      specActionFilter ([⟨some UserActionType.Bad⟩, ⟨some UserActionType.Bad⟩,
        ⟨some UserActionType.Thanks⟩].map UserAct.type) := by
  decide

/-- C7, amended: the filter removes a single occurrence of the
highest-priority filler type whenever the raw list has more than one element,
so it matches the claimed set-level behaviour exactly when no act type occurs
twice: for per-turn act lists with pairwise-distinct, non-null types, the
retained list is the claimed one (`Bad` dropped first if anything else
co-occurs, else `Thanks`, else `Hello`). -/
theorem C7_amended (turn : Nat) (acts : List UserAct)
    (hall : ∀ a ∈ acts, a.type ≠ none)
    (hnd : (acts.map UserAct.type).Nodup) :
    checkForGenActions turn acts = specActionFilter (acts.map UserAct.type) := by
  unfold checkForGenActions specActionFilter
  rw [collect_types_eq turn acts hall []]
  rw [List.dedup_eq_self.mpr hnd]
  simp only [List.nil_append]
  have hmem : ∀ T : UserActionType,
      ((acts.any (fun a => a.type == some T)) = true ↔
        some T ∈ acts.map UserAct.type) := by
    intro T
    simp [List.any_eq_true, List.mem_map]
  by_cases hlen : (acts.map UserAct.type).length > 1
  · rw [if_pos hlen, if_pos hlen]
    by_cases hBad : some UserActionType.Bad ∈ acts.map UserAct.type
    · rw [if_pos ((hmem _).mpr hBad), if_pos hBad]
    · rw [if_neg (fun h => hBad ((hmem _).mp h)), if_neg hBad]
      by_cases hTh : some UserActionType.Thanks ∈ acts.map UserAct.type
      · rw [if_pos ((hmem _).mpr hTh), if_pos hTh]
      · rw [if_neg (fun h => hTh ((hmem _).mp h)), if_neg hTh]
        by_cases hHe : some UserActionType.Hello ∈ acts.map UserAct.type
        · rw [if_pos ((hmem _).mpr hHe), if_pos hHe]
        · rw [if_neg (fun h => hHe ((hmem _).mp h)), if_neg hHe]
  · rw [if_neg hlen, if_neg hlen]

/-- C7, witness: the amended statement on the distinct-typed act list
`[Bad, Inform]`, where the filter drops `Bad`. -/
theorem C7_amended_witness :
    checkForGenActions 1 [⟨some UserActionType.Bad⟩, ⟨some UserActionType.Inform⟩] =
      specActionFilter ([⟨some UserActionType.Bad⟩,
        ⟨some UserActionType.Inform⟩].map UserAct.type) :=
  C7_amended 1 _ (by decide) (by decide)

/-- C8: on every turn after the initial one, `forward` dispatches by first
match in the priority order Bad > Bye > Thanks > Hello > Domain over the
filtered act-type list: `Bad` when the filtered list is empty or contains
`Bad`; `Bye` for `Bye`; `RequestMore` for `Thanks`; a `Request` on the open
slot for `Hello`; otherwise the domain decision `nextAction`, wrapped. -/
theorem C8_dispatch (d : Domain) (st : PolicyState) (turn : Nat)
    (bs : BeliefState) (userActs : Option (List UserAct)) (h : 0 < turn) :
    ((checkForGenActions turn (userActs.getD []) = [] ∨
        some UserActionType.Bad ∈ checkForGenActions turn (userActs.getD [])) →
      (forward d st turn bs userActs).2.2 = ForwardResult.wrapped badAct) ∧
    (some UserActionType.Bad ∉ checkForGenActions turn (userActs.getD []) →
      some UserActionType.Bye ∈ checkForGenActions turn (userActs.getD []) →
      (forward d st turn bs userActs).2.2 =
        ForwardResult.wrapped (rawSysAct SysActionType.Bye)) ∧
    (some UserActionType.Bad ∉ checkForGenActions turn (userActs.getD []) →
      some UserActionType.Bye ∉ checkForGenActions turn (userActs.getD []) →
      some UserActionType.Thanks ∈ checkForGenActions turn (userActs.getD []) →
      (forward d st turn bs userActs).2.2 =
        ForwardResult.wrapped (rawSysAct SysActionType.RequestMore)) ∧
    (some UserActionType.Bad ∉ checkForGenActions turn (userActs.getD []) →
      some UserActionType.Bye ∉ checkForGenActions turn (userActs.getD []) →
      some UserActionType.Thanks ∉ checkForGenActions turn (userActs.getD []) →
      some UserActionType.Hello ∈ checkForGenActions turn (userActs.getD []) →
      (forward d st turn bs userActs).2.2 =
        ForwardResult.wrapped
          ((rawSysAct SysActionType.Request).addValue (getOpenSlot d bs) none)) ∧
    (checkForGenActions turn (userActs.getD []) ≠ [] →
      some UserActionType.Bad ∉ checkForGenActions turn (userActs.getD []) →
      some UserActionType.Bye ∉ checkForGenActions turn (userActs.getD []) →
      some UserActionType.Thanks ∉ checkForGenActions turn (userActs.getD []) →
      some UserActionType.Hello ∉ checkForGenActions turn (userActs.getD []) →
      forward d st turn bs userActs =
        ((nextAction d st bs).1, (nextAction d st bs).2.1,
         ForwardResult.wrapped (nextAction d st bs).2.2)) := by
  have h0 : ¬ (userActs = none ∧ turn = 0) := by
    rintro ⟨_, ht⟩
    omega
  refine ⟨?_, ?_, ?_, ?_, ?_⟩
  · intro hcond
    simp only [forward]
    rw [if_neg h0]
    by_cases hc1 : checkForGenActions turn (userActs.getD []) = [] ∧ turn > 0
    · rw [if_pos hc1]
    · rcases hcond with he | hbad
      · exact absurd ⟨he, h⟩ hc1
      · rw [if_neg hc1, if_pos hbad]
  · intro hbad hbye
    simp only [forward]
    rw [if_neg h0, if_neg (fun hc : _ ∧ _ => by
      rw [hc.1] at hbye
      simp at hbye), if_neg hbad, if_pos hbye]
  · intro hbad hbye hth
    simp only [forward]
    rw [if_neg h0, if_neg (fun hc : _ ∧ _ => by
      rw [hc.1] at hth
      simp at hth), if_neg hbad, if_neg hbye, if_pos hth]
  · intro hbad hbye hth hhe
    simp only [forward]
    rw [if_neg h0, if_neg (fun hc : _ ∧ _ => by
      rw [hc.1] at hhe
      simp at hhe), if_neg hbad, if_neg hbye, if_neg hth, if_pos hhe]
  · intro hne hbad hbye hth hhe
    simp only [forward]
    rw [if_neg h0, if_neg (fun hc : _ ∧ _ => hne hc.1),
      if_neg hbad, if_neg hbye, if_neg hth, if_neg hhe]

/-- C8, witness: a non-initial turn whose only act is `Bye` yields the
wrapped `Bye` act. -/
theorem C8_dispatch_witness :
    (forward testDomain ⟨[], 0⟩ 1 bsEmpty
        (some [⟨some UserActionType.Bye⟩])).2.2 =
      ForwardResult.wrapped (rawSysAct SysActionType.Bye) :=
  (C8_dispatch testDomain ⟨[], 0⟩ 1 bsEmpty (some [⟨some UserActionType.Bye⟩])
    (by decide)).2.1 (by decide) (by decide)

/-- C10: on the initial turn with absent user acts, `forward` returns the
Welcome `SysAct` object directly (`bare`); on every other path it returns the
dictionary wrapping the action under the key `sys_act` (`wrapped`) — two
different result shapes from the same entry point. -/
theorem C10_result_shapes (d : Domain) (st : PolicyState) (turn : Nat)
    (bs : BeliefState) (userActs : Option (List UserAct)) :
    (userActs = none ∧ turn = 0 →
      forward d st turn bs userActs =
        (st, bs, ForwardResult.bare (rawSysAct SysActionType.Welcome))) ∧
    (¬ (userActs = none ∧ turn = 0) →
      ∃ a, (forward d st turn bs userActs).2.2 = ForwardResult.wrapped a) := by
  constructor
  · intro hc
    simp only [forward]
    rw [if_pos hc]
  · intro hc
    simp only [forward]
    rw [if_neg hc]
    exact ⟨_, rfl⟩

/-- C10, witness: the bare Welcome on turn 0 with absent acts, and the
wrapped shape on a later turn. -/
theorem C10_result_shapes_witness :
    forward testDomain ⟨[], 0⟩ 0 bsEmpty none =
      ((⟨[], 0⟩ : PolicyState), bsEmpty,
        ForwardResult.bare (rawSysAct SysActionType.Welcome)) ∧
    ∃ a, (forward testDomain ⟨[], 0⟩ 1 bsEmpty none).2.2 =
      ForwardResult.wrapped a :=
  ⟨(C10_result_shapes testDomain ⟨[], 0⟩ 0 bsEmpty none).1 ⟨rfl, rfl⟩,
   (C10_result_shapes testDomain ⟨[], 0⟩ 1 bsEmpty none).2 (by simp)⟩

end Adviser
